import Mathlib

/-!
# ShipDemo: wave field, ship physics, projection and water grid

A shallow embedding of `src/RTSEngine/main.cpp`.

* The program computes in `float`.  The embedding is generic in the scalar type `α`
  (any field), so every definition is an ordinary executable function; the theorems
  instantiate `α` with the real numbers, i.e. they describe the program in exact
  arithmetic (no rounding, decimal literals denote the decimal numbers written).
* The C/GLSL math library (`sin`, `cos`, `tan`, `sqrt`, `atan2`) is external to the
  program and is passed in as a record `Libm α`.  Over the reals it is instantiated
  with `Real.sin`, `Real.cos`, `Real.tan`, `Real.sqrt` and, for `atan2 y x`,
  the principal argument of the complex number `x + y i`.
* The process-scope globals (`shipX`, ..., `shipYaw`, `projection`) become explicit
  state that each routine receives and returns.
* The calls `glfwGetKey` and `glfwGetTime` are inputs of the routine that makes them.
-/

namespace ShipDemo

/-! ## External math library -/

/-- The functions of `<cmath>` (and the GLSL built-ins of the same name) that the
program calls. `atan2 y x` takes its arguments in the C order. -/
structure Libm (α : Type) where
  sin : α → α
  cos : α → α
  tan : α → α
  sqrt : α → α
  atan2 : α → α → α

/-! ## Global ship state (`main.cpp` lines 10-13) -/

/-- The globals `shipX, shipY, shipZ, shipVX, shipVZ, shipPitch, shipRoll, shipYaw`. -/
structure Ship (α : Type) where
  shipX : α
  shipY : α
  shipZ : α
  shipVX : α
  shipVZ : α
  shipPitch : α
  shipRoll : α
  shipYaw : α

section Defs

variable {α : Type} [Field α]

/-- The initial values of the globals: position `(0, 0.5, 0)`, everything else `0`. -/
def initialShip : Ship α :=
  { shipX := 0.0, shipY := 0.5, shipZ := 0.0,
    shipVX := 0.0, shipVZ := 0.0,
    shipPitch := 0.0, shipRoll := 0.0, shipYaw := 0.0 }

/-- The constant `submersionDepth = 0.1f`. -/
def submersionDepth : α := 0.1

/-- The function `getWaveHeight(x, z, time)` (lines 15-17). -/
def getWaveHeight (m : Libm α) (x z time : α) : α :=
  0.1 * m.sin (2.0 * x + time) * m.cos (2.0 * z + time)

/-! ## Water vertex shader (lines 19-37) -/

/-- A GLSL `vec3`. -/
structure Vec3 (α : Type) where
  x : α
  y : α
  z : α

/-- Modelled from the spec: the GLSL built-in `normalize` is not part of `src/`; the
spec (4.1) uses it to scale the normal to unit length: `normalize(v) = v / length(v)`. -/
def normalize (m : Libm α) (v : Vec3 α) : Vec3 α :=
  let len := m.sqrt (v.x * v.x + v.y * v.y + v.z * v.z)
  { x := v.x / len, y := v.y / len, z := v.z / len }

/-- The local variables of the water vertex shader's `main` after line 32:
the displaced `pos` and the two slopes `dx`, `dz`. -/
structure WaterVertexLocals (α : Type) where
  pos : Vec3 α
  dx : α
  dz : α

/-- Lines 29-32 of the water vertex shader: `pos = aPos`, the displacement of `pos.y`,
then `dx` and `dz` (which read `pos.x` and `pos.z` only). -/
def waterVertexLocals (m : Libm α) (aPos : Vec3 α) (time : α) : WaterVertexLocals α :=
  let pos := aPos
  let pos := { pos with y := pos.y + 0.1 * m.sin (2.0 * pos.x + time) * m.cos (2.0 * pos.z + time) }
  let dx := -0.2 * m.cos (2.0 * pos.x + time) * m.cos (2.0 * pos.z + time)
  let dz := -0.2 * m.sin (2.0 * pos.x + time) * m.sin (2.0 * pos.z + time)
  { pos := pos, dx := dx, dz := dz }

/-- The outputs `fragPos` and `normal` of the water vertex shader. -/
structure WaterVertexOut (α : Type) where
  fragPos : Vec3 α
  normal : Vec3 α

/-- The water vertex shader's `main` (lines 28-36), without the clip-space
`gl_Position`: `normal = normalize(vec3(dx, 1.0, dz))`, `fragPos = pos`. -/
def waterVertexShader (m : Libm α) (aPos : Vec3 α) (time : α) : WaterVertexOut α :=
  let l := waterVertexLocals m aPos time
  { fragPos := l.pos, normal := normalize m { x := l.dx, y := 1.0, z := l.dz } }

/-! ## Input (lines 112-122) -/

/-- For each arrow key, whether `glfwGetKey(window, key) == GLFW_PRESS`. -/
structure Keys where
  up : Bool
  down : Bool
  left : Bool
  right : Bool
  deriving DecidableEq

/-- No key held. -/
def noKeys : Keys := { up := false, down := false, left := false, right := false }

/-- The routine `processInput` (lines 112-122): four independent `if`s in source order. -/
def processInput (keys : Keys) (s : Ship α) : Ship α :=
  let acceleration : α := 0.01
  let s := if keys.up then { s with shipVZ := s.shipVZ + acceleration } else s
  let s := if keys.down then { s with shipVZ := s.shipVZ - acceleration } else s
  let s := if keys.left then { s with shipVX := s.shipVX - acceleration } else s
  let s := if keys.right then { s with shipVX := s.shipVX + acceleration } else s
  s

/-! ## Physics (lines 124-150) -/

/-- Modelled from the spec: `glm::mix` belongs to the glm library, which is not under
`src/`; the spec (4.2, step 8) describes it as linear interpolation of the angle value
with factor `a`: `mix(x, y, a) = x * (1 - a) + y * a`. -/
def mix (x y a : α) : α := x * (1 - a) + y * a

/-- Lines 141-146 of `updatePhysics`: pitch and roll from the four corner heights. -/
def attitude (m : Libm α) (h_fl h_fr h_bl h_br : α) : α × α :=
  let front_avg := (h_fl + h_fr) / 2.0
  let back_avg := (h_bl + h_br) / 2.0
  let left_avg := (h_fl + h_bl) / 2.0
  let right_avg := (h_fr + h_br) / 2.0
  let shipPitch := m.atan2 (front_avg - back_avg) 2.0 * 0.8
  let shipRoll := m.atan2 (left_avg - right_avg) 1.0 * 0.8
  (shipPitch, shipRoll)

/-- The routine `updatePhysics(deltaTime)` (lines 124-150); `time` is the value that
`glfwGetTime()` returns inside it. -/
def updatePhysics (m : Libm α) (deltaTime time : α) (s : Ship α) : Ship α :=
  let shipX := s.shipX + s.shipVX * deltaTime
  let shipZ := s.shipZ + s.shipVZ * deltaTime
  let shipVX := s.shipVX * 0.99
  let shipVZ := s.shipVZ * 0.99
  let h_fl := getWaveHeight m (shipX - 0.5) (shipZ - 1.0) time
  let h_fr := getWaveHeight m (shipX + 0.5) (shipZ - 1.0) time
  let h_bl := getWaveHeight m (shipX - 0.5) (shipZ + 1.0) time
  let h_br := getWaveHeight m (shipX + 0.5) (shipZ + 1.0) time
  let avg_h := (h_fl + h_fr + h_bl + h_br) / 4.0
  let dynamicSubmersion := submersionDepth * (1.0 + 0.2 * m.sin time)
  let shipY := avg_h - dynamicSubmersion
  let pr := attitude m h_fl h_fr h_bl h_br
  let velocityAngle := m.atan2 shipVX shipVZ
  let shipYaw := mix s.shipYaw velocityAngle 0.1
  { shipX := shipX, shipY := shipY, shipZ := shipZ,
    shipVX := shipVX, shipVZ := shipVZ,
    shipPitch := pr.1, shipRoll := pr.2, shipYaw := shipYaw }

/-- What one iteration of the loop in `main` observes: the key states, the frame
time `deltaTime` and the clock value read inside `updatePhysics`. -/
structure Frame (α : Type) where
  keys : Keys
  deltaTime : α
  time : α

/-- One iteration of the loop in `main` (lines 322-323) on the ship state:
`processInput` then `updatePhysics`. -/
def frame (m : Libm α) (f : Frame α) (s : Ship α) : Ship α :=
  updatePhysics m f.deltaTime f.time (processInput f.keys s)

/-- The loop of `main` run over a finite sequence of frames. -/
def mainLoop (m : Libm α) (s : Ship α) (frames : List (Frame α)) : Ship α :=
  frames.foldl (fun s f => frame m f s) s

/-! ## Projection (lines 244 and 283-286) -/

/-- A `glm::mat4`, column-major as in glm: `M c r` is `M[c][r]`. -/
abbrev Mat4 (α : Type) := Fin 4 → Fin 4 → α

/-- Modelled from the spec: `glm::radians` belongs to the glm library, which is not
under `src/`; it turns the spec's 45 degrees into radians by multiplying with the
decimal constant glm uses for `π / 180`. -/
def radians (degrees : α) : α := degrees * 0.01745329251994329576923690768489

/-- Modelled from the spec: `glm::perspective(fovy, aspect, zNear, zFar)` belongs to the
glm library, which is not under `src/`; the spec (4.3) names it the perspective
projection with vertical field of view, aspect, near and far plane. The entries are
those of glm's default configuration (right-handed, depth range `[-1, 1]`). -/
def perspective (m : Libm α) (fovy aspect zNear zFar : α) : Mat4 α :=
  let tanHalfFovy := m.tan (fovy / 2)
  fun c r =>
    if c = 0 ∧ r = 0 then 1 / (aspect * tanHalfFovy)
    else if c = 1 ∧ r = 1 then 1 / tanHalfFovy
    else if c = 2 ∧ r = 2 then -(zFar + zNear) / (zFar - zNear)
    else if c = 2 ∧ r = 3 then -1
    else if c = 3 ∧ r = 2 then -(2 * zFar * zNear) / (zFar - zNear)
    else 0

/-- The value `init` gives the global `projection` (line 244). -/
def initProjection (m : Libm α) : Mat4 α :=
  perspective m (radians 45.0) (800.0 / 600.0) 0.1 100.0

/-- The callback `framebuffer_size_callback(window, width, height)` (lines 283-286) on
the global `projection`: `(float)width / height` is a division of scalars. -/
def framebuffer_size_callback (m : Libm α) (width height : Int) (_projection : Mat4 α) : Mat4 α :=
  perspective m (radians 45.0) ((width : α) / (height : α)) 0.1 100.0

/-! ## Water grid (lines 157-185 and 260) -/

/-- The constant `gridSize = 50` (an `int`). -/
def gridSize : Int := 50

/-- The constant `size = 10.0f`. -/
def size : α := 10.0

/-- The first pair of loops of `init` (lines 162-170): three floats per grid point. -/
def waterVertices : List α :=
  (List.range (gridSize + 1).toNat).flatMap fun i =>
    (List.range (gridSize + 1).toNat).flatMap fun j =>
      let x : α := -size + 2.0 * size * (i : α) / (gridSize : α)
      let z : α := -size + 2.0 * size * (j : α) / (gridSize : α)
      [x, 0.0, z]

/-- Conversion of an `int` to `unsigned int`, as `push_back` on the index vector does. -/
def toUnsigned (k : Int) : Nat := (k % 4294967296).toNat

/-- The body of the second pair of loops (lines 174-177): the four `int` corners
`(topLeft, topRight, bottomLeft, bottomRight)` of cell `(i, j)`. -/
def cellCorners (i j : Int) : Int × Int × Int × Int :=
  let topLeft := i * (gridSize + 1) + j
  let topRight := topLeft + 1
  let bottomLeft := (i + 1) * (gridSize + 1) + j
  let bottomRight := bottomLeft + 1
  (topLeft, topRight, bottomLeft, bottomRight)

/-- The six `push_back`s of cell `(i, j)` (lines 178-183). -/
def cellIndices (i j : Int) : List Nat :=
  match cellCorners i j with
  | (topLeft, topRight, bottomLeft, bottomRight) =>
    [toUnsigned topLeft, toUnsigned bottomLeft, toUnsigned topRight,
     toUnsigned topRight, toUnsigned bottomLeft, toUnsigned bottomRight]

/-- The second pair of loops of `init` (lines 172-185). -/
def waterIndices : List Nat :=
  (List.range gridSize.toNat).flatMap fun i =>
    (List.range gridSize.toNat).flatMap fun j => cellIndices (i : Int) (j : Int)

/-- The element count `render` passes to `glDrawElements` for the water (line 260). -/
def waterDrawCount : Nat := 50 * 50 * 6

end Defs

/-! ## Facts of real analysis used below -/

section Facts

open Real

/-- The wave formula is bounded by its amplitude `0.1`. -/
theorem abs_wave_le (a b : ℝ) : |0.1 * Real.sin a * Real.cos b| ≤ 0.1 := by
  have hs := Real.abs_sin_le_one a
  have hc := Real.abs_cos_le_one b
  rw [abs_mul, abs_mul, abs_of_pos (show (0 : ℝ) < 0.1 by norm_num)]
  have h := mul_le_mul hs hc (abs_nonneg _) zero_le_one
  nlinarith [abs_nonneg (Real.sin a), abs_nonneg (Real.cos b)]

/-- The derivative in `x` of the wave formula. -/
theorem hasDerivAt_wave_x (x z t : ℝ) :
    HasDerivAt (fun u : ℝ => 0.1 * Real.sin (2.0 * u + t) * Real.cos (2.0 * z + t))
      (0.2 * Real.cos (2.0 * x + t) * Real.cos (2.0 * z + t)) x := by
  have h1 : HasDerivAt (fun u : ℝ => 2.0 * u + t) 2.0 x := by
    simpa using ((hasDerivAt_id x).const_mul (2.0 : ℝ)).add_const t
  have h2 := ((h1.sin).const_mul (0.1 : ℝ)).mul_const (Real.cos (2.0 * z + t))
  refine h2.congr_deriv ?_
  ring_nf

/-- The derivative in `z` of the wave formula. -/
theorem hasDerivAt_wave_z (x z t : ℝ) :
    HasDerivAt (fun u : ℝ => 0.1 * Real.sin (2.0 * x + t) * Real.cos (2.0 * u + t))
      (-0.2 * Real.sin (2.0 * x + t) * Real.sin (2.0 * z + t)) z := by
  have h1 : HasDerivAt (fun u : ℝ => 2.0 * u + t) 2.0 z := by
    simpa using ((hasDerivAt_id z).const_mul (2.0 : ℝ)).add_const t
  have h2 := (h1.cos).const_mul ((0.1 : ℝ) * Real.sin (2.0 * x + t))
  refine h2.congr_deriv ?_
  ring_nf

/-- For `x > 0` the principal argument of `x + y i` is `arctan (y / x)`. -/
theorem arg_mk_eq_arctan {x y : ℝ} (hx : 0 < x) :
    Complex.arg ⟨x, y⟩ = Real.arctan (y / x) := by
  have h1 : |Complex.arg ⟨x, y⟩| < π / 2 := Complex.abs_arg_lt_pi_div_two_iff.mpr (Or.inl hx)
  have h2 := Complex.tan_arg ⟨x, y⟩
  simp only at h2
  rw [← h2, Real.arctan_tan (by linarith [(abs_lt.mp h1).1]) (abs_lt.mp h1).2]

/-- Scaling both arguments of `atan2` by `0.99` does not change the angle. -/
theorem arg_damped (vx vz : ℝ) :
    Complex.arg ⟨vz * 0.99, vx * 0.99⟩ = Complex.arg ⟨vz, vx⟩ := by
  have h := Complex.arg_real_mul ⟨vz, vx⟩ (show (0 : ℝ) < 0.99 by norm_num)
  rw [← h]
  congr 1
  apply Complex.ext <;> simp [mul_comm]

/-- Enclosure of `arctan 0.1` from the degree-3 Taylor bounds of `sin` and `cos`. -/
theorem arctan_tenth_bounds : 0.099625 < Real.arctan 0.1 ∧ Real.arctan 0.1 < 0.09975 := by
  have key : ∀ u : ℝ, 0 < u → u < 1 →
      (u - u ^ 3 / 6 + u ^ 4 * (5 / 96) < 0.1 * (1 - u ^ 2 / 2 - u ^ 4 * (5 / 96)) →
        u < Real.arctan 0.1)
      ∧ (0.1 * (1 - u ^ 2 / 2 + u ^ 4 * (5 / 96)) < u - u ^ 3 / 6 - u ^ 4 * (5 / 96) →
        Real.arctan 0.1 < u) := by
    intro u hu0 hu1
    have habs : |u| ≤ 1 := by rw [abs_of_pos hu0]; exact hu1.le
    have hs := abs_le.mp (Real.sin_bound habs)
    have hc := abs_le.mp (Real.cos_bound habs)
    rw [abs_of_pos hu0] at hs hc
    have hupi : u < π / 2 := by linarith [Real.pi_gt_three]
    have hcos : 0 < Real.cos u := Real.cos_pos_of_mem_Ioo ⟨by linarith, hupi⟩
    have hu : Real.arctan (Real.tan u) = u := Real.arctan_tan (by linarith) hupi
    constructor
    · intro h
      have hlt : Real.tan u < 0.1 := by
        rw [Real.tan_eq_sin_div_cos, div_lt_iff₀ hcos]
        linarith [hs.2, hc.1]
      have hmono := Real.arctan_strictMono hlt
      rwa [hu] at hmono
    · intro h
      have hlt : 0.1 < Real.tan u := by
        rw [Real.tan_eq_sin_div_cos, lt_div_iff₀ hcos]
        linarith [hs.1, hc.2]
      have hmono := Real.arctan_strictMono hlt
      rwa [hu] at hmono
  exact ⟨(key 0.099625 (by norm_num) (by norm_num)).1 (by norm_num),
         (key 0.09975 (by norm_num) (by norm_num)).2 (by norm_num)⟩

/-- The half field of view `radians 45 / 2` has a positive tangent. -/
theorem tan_half_fovy_pos : 0 < Real.tan (radians (45.0 : ℝ) / 2) := by
  apply Real.tan_pos_of_pos_of_lt_pi_div_two
  · norm_num [radians]
  · have hpi := Real.pi_gt_three
    norm_num [radians]
    linarith

end Facts

/-! ## The frame loop with no key held -/

section Idle

variable {α : Type} [Field α]

/-- With no key held `processInput` changes nothing. -/
theorem processInput_noKeys (s : Ship α) : processInput noKeys s = s := rfl

/-- The loop peels off its first frame. -/
theorem mainLoop_cons (m : Libm α) (s : Ship α) (f : Frame α) (fs : List (Frame α)) :
    mainLoop m s (f :: fs) = mainLoop m (frame m f s) fs := rfl

/-- The loop ends with its last frame. -/
theorem mainLoop_concat (m : Libm α) (s : Ship α) (fs : List (Frame α)) (f : Frame α) :
    mainLoop m s (fs ++ [f]) = frame m f (mainLoop m s fs) := by
  simp [mainLoop, List.foldl_append]

/-- With no key held, every frame multiplies both velocity components by `0.99`. -/
theorem mainLoop_idle_velocity (m : Libm α) (frames : List (Frame α))
    (hk : ∀ f ∈ frames, f.keys = noKeys) (s : Ship α) :
    (mainLoop m s frames).shipVX = s.shipVX * 0.99 ^ frames.length
    ∧ (mainLoop m s frames).shipVZ = s.shipVZ * 0.99 ^ frames.length := by
  induction frames generalizing s with
  | nil => simp [mainLoop]
  | cons f fs ih =>
    have hf : f.keys = noKeys := hk f (List.mem_cons_self f fs)
    have ih2 := ih (fun g hg => hk g (List.mem_cons_of_mem f hg)) (frame m f s)
    rw [mainLoop_cons, ih2.1, ih2.2]
    simp only [frame, hf, processInput_noKeys, updatePhysics, List.length_cons, pow_succ]
    constructor <;> ring

/-- With no key held, a ship with zero horizontal position and velocity keeps them. -/
theorem mainLoop_idle_rest (m : Libm α) (frames : List (Frame α))
    (hk : ∀ f ∈ frames, f.keys = noKeys) (s : Ship α)
    (hx : s.shipX = 0) (hz : s.shipZ = 0) (hvx : s.shipVX = 0) (hvz : s.shipVZ = 0) :
    (mainLoop m s frames).shipX = 0 ∧ (mainLoop m s frames).shipZ = 0
    ∧ (mainLoop m s frames).shipVX = 0 ∧ (mainLoop m s frames).shipVZ = 0 := by
  induction frames generalizing s with
  | nil => exact ⟨hx, hz, hvx, hvz⟩
  | cons f fs ih =>
    have hf : f.keys = noKeys := hk f (List.mem_cons_self f fs)
    rw [mainLoop_cons]
    apply ih (fun g hg => hk g (List.mem_cons_of_mem f hg)) <;>
      simp [frame, hf, processInput_noKeys, updatePhysics, hx, hz, hvx, hvz]

end Idle

/-! ## The water grid -/

section Grid

/-- The six indices of a cell as natural numbers: the conversion to `unsigned int`
does not wrap. -/
theorem cellIndices_eq (i j : Nat) (hi : i < 50) (hj : j < 50) :
    cellIndices (i : Int) (j : Int)
      = [i * 51 + j, (i + 1) * 51 + j, i * 51 + j + 1,
         i * 51 + j + 1, (i + 1) * 51 + j, (i + 1) * 51 + j + 1] := by
  simp only [cellIndices, cellCorners, gridSize, toUnsigned]
  have e1 : (((i : Int) * (50 + 1) + j) % 4294967296).toNat = i * 51 + j := by omega
  have e2 : (((i : Int) * (50 + 1) + j + 1) % 4294967296).toNat = i * 51 + j + 1 := by omega
  have e3 : ((((i : Int) + 1) * (50 + 1) + j) % 4294967296).toNat = (i + 1) * 51 + j := by omega
  have e4 : ((((i : Int) + 1) * (50 + 1) + j + 1) % 4294967296).toNat = (i + 1) * 51 + j + 1 := by
    omega
  rw [e1, e2, e3, e4]

/-- A nested loop that appends `c` elements per iteration appends `length * c`. -/
theorem length_flatMap_const {β γ : Type} (l : List β) (f : β → List γ) (c : Nat)
    (h : ∀ b ∈ l, (f b).length = c) : (l.flatMap f).length = l.length * c := by
  induction l with
  | nil => simp
  | cons b bs ih =>
    rw [List.flatMap_cons, List.length_append, h b (List.mem_cons_self b bs),
      ih (fun x hx => h x (List.mem_cons_of_mem b hx)), List.length_cons]
    ring

/-- The vertex buffer holds `51 * 51 * 3` floats. -/
theorem waterVertices_length {α : Type} [Field α] :
    (waterVertices (α := α)).length = 7803 := by
  unfold waterVertices
  rw [length_flatMap_const _ _ 153]
  · simp [gridSize]
  · intro i _
    rw [length_flatMap_const _ _ 3]
    · simp [gridSize]
    · intro j _
      rfl

/-- The index buffer holds `50 * 50 * 6` indices. -/
theorem waterIndices_length : waterIndices.length = 15000 := by
  unfold waterIndices
  rw [length_flatMap_const _ _ 300]
  · simp [gridSize]
  · intro i _
    rw [length_flatMap_const _ _ 6]
    · simp [gridSize]
    · intro j _
      rfl

/-- Every index addresses one of the `2601` vertices. -/
theorem waterIndices_lt (k : Nat) (hk : k ∈ waterIndices) : k < 2601 := by
  simp only [waterIndices, List.mem_flatMap, List.mem_range] at hk
  obtain ⟨i, hi, j, hj, hk⟩ := hk
  have hi2 : i < 50 := by simpa [gridSize] using hi
  have hj2 : j < 50 := by simpa [gridSize] using hj
  rw [cellIndices_eq i j hi2 hj2] at hk
  simp only [List.mem_cons, List.mem_singleton, List.not_mem_nil, or_false] at hk
  omega

end Grid

/-! ## The wave field on the CPU and in the shader -/

section Wave

open Real

/-- C1: for all real `x`, `z`, `t` (and any rest height `y` of the vertex),
`getWaveHeight x z t` is `0.1 * sin (2x + t) * cos (2z + t)`, and the water vertex
shader moves a vertex at `(x, y, z)` to `(x, y + getWaveHeight x z t, z)`: the
displacement it adds to `pos.y` is the CPU wave height, with the same constants. -/
theorem getWaveHeight_eq_shader_displacement (x y z t : ℝ) :
    let m : Libm ℝ := ⟨Real.sin, Real.cos, Real.tan, Real.sqrt, fun b a => Complex.arg ⟨a, b⟩⟩
    getWaveHeight m x z t = 0.1 * Real.sin (2.0 * x + t) * Real.cos (2.0 * z + t)
    ∧ (waterVertexShader m ⟨x, y, z⟩ t).fragPos.y - y = getWaveHeight m x z t
    ∧ (waterVertexShader m ⟨x, y, z⟩ t).fragPos.x = x
    ∧ (waterVertexShader m ⟨x, y, z⟩ t).fragPos.z = z := by
  intro m
  refine ⟨rfl, ?_, rfl, rfl⟩
  simp only [waterVertexShader, waterVertexLocals, getWaveHeight]
  ring

/-- C2 (the code at the failing input): everywhere the shader's `dx` is minus the
partial derivative of the wave height in `x`, but its `dz` is plus the partial
derivative in `z`, not minus it. At the vertex `(0, 0, 0)` and time `1` the shader
computes `dz < 0` while minus the derivative in `z` is positive. -/
theorem waterVertex_dz_is_plus_height_slope :
    let m : Libm ℝ := ⟨Real.sin, Real.cos, Real.tan, Real.sqrt, fun b a => Complex.arg ⟨a, b⟩⟩
    (∀ x y z t : ℝ,
      HasDerivAt (fun u => getWaveHeight m u z t) (-(waterVertexLocals m ⟨x, y, z⟩ t).dx) x
      ∧ HasDerivAt (fun u => getWaveHeight m x u t) ((waterVertexLocals m ⟨x, y, z⟩ t).dz) z)
    ∧ (waterVertexLocals m ⟨0, 0, 0⟩ 1).dz < 0
    ∧ 0 < -deriv (fun u => getWaveHeight m 0 u 1) 0
    ∧ (waterVertexLocals m ⟨0, 0, 0⟩ 1).dz ≠ -deriv (fun u => getWaveHeight m 0 u 1) 0 := by
  intro m
  have hsin : 0 < Real.sin 1 :=
    Real.sin_pos_of_pos_of_lt_pi one_pos (by linarith [Real.pi_gt_three])
  have hsq : 0 < Real.sin 1 * Real.sin 1 := mul_pos hsin hsin
  have hd : deriv (fun u => getWaveHeight m 0 u 1) 0 = -0.2 * Real.sin 1 * Real.sin 1 := by
    have h := (hasDerivAt_wave_z 0 0 1).deriv
    simp only [mul_zero, zero_add] at h
    simpa [getWaveHeight, m] using h
  have hdz : (waterVertexLocals m ⟨0, 0, 0⟩ 1).dz = -0.2 * Real.sin 1 * Real.sin 1 := by
    simp [waterVertexLocals, m]
  refine ⟨?_, ?_, ?_, ?_⟩
  · intro x y z t
    constructor
    · convert hasDerivAt_wave_x x z t using 1
      simp only [waterVertexLocals, m]
      ring
    · exact hasDerivAt_wave_z x z t
  · rw [hdz]; nlinarith
  · rw [hd]; nlinarith
  · rw [hd, hdz]
    intro h
    nlinarith

/-- C8 (counterexample): at time `t = 1` the wave height at the origin is not zero. -/
theorem origin_height_nonzero_at_one :
    let m : Libm ℝ := ⟨Real.sin, Real.cos, Real.tan, Real.sqrt, fun b a => Complex.arg ⟨a, b⟩⟩
    ¬ (getWaveHeight m 0 0 1 = 0) := by
  intro m
  have hsin : 0 < Real.sin 1 :=
    Real.sin_pos_of_pos_of_lt_pi one_pos (by linarith [Real.pi_gt_three])
  have hcos : 0 < Real.cos 1 :=
    Real.cos_pos_of_mem_Ioo ⟨by linarith [Real.pi_gt_three], by linarith [Real.pi_gt_three]⟩
  have h : getWaveHeight m 0 0 1 = 0.1 * Real.sin 1 * Real.cos 1 := by
    simp [getWaveHeight, m]
  rw [h]
  have hpos := mul_pos hsin hcos
  intro h0
  nlinarith

/-- C8 (amended): for every time `t` the wave height at the origin is
`0.1 * sin t * cos t`; it is zero exactly when `t` is an integer multiple of `π / 2`,
in particular at `t = 0`. -/
theorem getWaveHeight_origin (t : ℝ) :
    let m : Libm ℝ := ⟨Real.sin, Real.cos, Real.tan, Real.sqrt, fun b a => Complex.arg ⟨a, b⟩⟩
    getWaveHeight m 0 0 t = 0.1 * Real.sin t * Real.cos t
    ∧ (getWaveHeight m 0 0 t = 0 ↔ ∃ k : ℤ, t = k * (π / 2))
    ∧ getWaveHeight m 0 0 0 = 0 := by
  intro m
  have h1 : ∀ u : ℝ, getWaveHeight m 0 0 u = 0.1 * Real.sin u * Real.cos u := by
    intro u; simp [getWaveHeight, m]
  refine ⟨h1 t, ?_, by simp [h1]⟩
  have h2 : (0.1 : ℝ) * Real.sin t * Real.cos t = 0.05 * Real.sin (2 * t) := by
    rw [Real.sin_two_mul]; ring
  rw [h1, h2]
  constructor
  · intro h
    have h3 : Real.sin (2 * t) = 0 := by
      rcases mul_eq_zero.mp h with h | h
      · norm_num at h
      · exact h
    obtain ⟨k, hk⟩ := Real.sin_eq_zero_iff.mp h3
    exact ⟨k, by linarith⟩
  · rintro ⟨k, rfl⟩
    have h3 : Real.sin (2 * (k * (π / 2))) = 0 := by
      rw [Real.sin_eq_zero_iff]; exact ⟨k, by ring⟩
    rw [h3]; ring

end Wave

/-! ## One frame of input and physics -/

section Physics

open Real

/-- C3: for every prior state, frame time `dt`, clock value `t` and key combination,
with `ax = (RIGHT ? 0.01 : 0) + (LEFT ? -0.01 : 0)` and
`az = (UP ? 0.01 : 0) + (DOWN ? -0.01 : 0)`, `processInput` turns the velocity into
`(vx + ax, vz + az)` and the whole frame gives the position
`(x + (vx + ax) * dt, z + (vz + az) * dt)` and the velocity
`(0.99 * (vx + ax), 0.99 * (vz + az))`. -/
theorem frame_kinematics (s : Ship ℝ) (dt t : ℝ) (keys : Keys) :
    let m : Libm ℝ := ⟨Real.sin, Real.cos, Real.tan, Real.sqrt, fun b a => Complex.arg ⟨a, b⟩⟩
    let ax : ℝ := (if keys.right then 0.01 else 0) + (if keys.left then -0.01 else 0)
    let az : ℝ := (if keys.up then 0.01 else 0) + (if keys.down then -0.01 else 0)
    (processInput keys s).shipVX = s.shipVX + ax
    ∧ (processInput keys s).shipVZ = s.shipVZ + az
    ∧ (frame m ⟨keys, dt, t⟩ s).shipX = s.shipX + (s.shipVX + ax) * dt
    ∧ (frame m ⟨keys, dt, t⟩ s).shipZ = s.shipZ + (s.shipVZ + az) * dt
    ∧ (frame m ⟨keys, dt, t⟩ s).shipVX = 0.99 * (s.shipVX + ax)
    ∧ (frame m ⟨keys, dt, t⟩ s).shipVZ = 0.99 * (s.shipVZ + az) := by
  intro m ax az
  have hv : (processInput keys s).shipVX = s.shipVX + ax
      ∧ (processInput keys s).shipVZ = s.shipVZ + az
      ∧ (processInput keys s).shipX = s.shipX ∧ (processInput keys s).shipZ = s.shipZ := by
    obtain ⟨u, d, l, r⟩ := keys
    cases u <;> cases d <;> cases l <;> cases r <;>
      (refine ⟨?_, ?_, rfl, rfl⟩ <;> simp [processInput, ax, az] <;> ring_nf)
  obtain ⟨h1, h2, h3, h4⟩ := hv
  refine ⟨h1, h2, ?_, ?_, ?_, ?_⟩
  · simp only [frame, updatePhysics, h1, h3]
  · simp only [frame, updatePhysics, h2, h4]
  · simp only [frame, updatePhysics, h1]
    exact mul_comm _ _
  · simp only [frame, updatePhysics, h2]
    exact mul_comm _ _

/-- C4: `updatePhysics` sets the pitch to
`atan2 ((h_fl + h_fr)/2 - (h_bl + h_br)/2, 2.0) * 0.8` and the roll to
`atan2 ((h_fl + h_bl)/2 - (h_fr + h_br)/2, 1.0) * 0.8` of the four corner heights it
samples; for the samples `(0.1, 0.1, -0.1, -0.1)` the pitch is `atan2 (0.2, 2.0) * 0.8`,
strictly between `0.0797` and `0.0798`, and the roll is `0`. -/
theorem updatePhysics_pitch_roll :
    let m : Libm ℝ := ⟨Real.sin, Real.cos, Real.tan, Real.sqrt, fun b a => Complex.arg ⟨a, b⟩⟩
    (∀ (s : Ship ℝ) (dt t : ℝ),
      let x := s.shipX + s.shipVX * dt
      let z := s.shipZ + s.shipVZ * dt
      let h_fl := getWaveHeight m (x - 0.5) (z - 1.0) t
      let h_fr := getWaveHeight m (x + 0.5) (z - 1.0) t
      let h_bl := getWaveHeight m (x - 0.5) (z + 1.0) t
      let h_br := getWaveHeight m (x + 0.5) (z + 1.0) t
      (updatePhysics m dt t s).shipPitch
          = m.atan2 ((h_fl + h_fr) / 2 - (h_bl + h_br) / 2) 2.0 * 0.8
      ∧ (updatePhysics m dt t s).shipRoll
          = m.atan2 ((h_fl + h_bl) / 2 - (h_fr + h_br) / 2) 1.0 * 0.8)
    ∧ (∀ h_fl h_fr h_bl h_br : ℝ,
        attitude m h_fl h_fr h_bl h_br
          = (m.atan2 ((h_fl + h_fr) / 2 - (h_bl + h_br) / 2) 2.0 * 0.8,
             m.atan2 ((h_fl + h_bl) / 2 - (h_fr + h_br) / 2) 1.0 * 0.8))
    ∧ (attitude m 0.1 0.1 (-0.1) (-0.1)).1 = m.atan2 0.2 2.0 * 0.8
    ∧ 0.0797 < (attitude m 0.1 0.1 (-0.1) (-0.1)).1
    ∧ (attitude m 0.1 0.1 (-0.1) (-0.1)).1 < 0.0798
    ∧ (attitude m 0.1 0.1 (-0.1) (-0.1)).2 = 0 := by
  intro m
  have hatt : ∀ a b c d : ℝ,
      attitude m a b c d
        = (m.atan2 ((a + b) / 2 - (c + d) / 2) 2.0 * 0.8,
           m.atan2 ((a + c) / 2 - (b + d) / 2) 1.0 * 0.8) := by
    intro a b c d
    simp only [attitude]
    norm_num
  have hp : (attitude m 0.1 0.1 (-0.1) (-0.1)).1 = Real.arctan 0.1 * 0.8 := by
    simp only [attitude, m]
    rw [arg_mk_eq_arctan (by norm_num)]
    norm_num
  refine ⟨?_, hatt, ?_, ?_, ?_, ?_⟩
  · intro s dt t x z h_fl h_fr h_bl h_br
    have h := hatt h_fl h_fr h_bl h_br
    exact ⟨congrArg Prod.fst h, congrArg Prod.snd h⟩
  · rw [hatt]
    norm_num
  · rw [hp]; linarith [arctan_tenth_bounds.1]
  · rw [hp]; linarith [arctan_tenth_bounds.2]
  · simp only [attitude, m]
    rw [arg_mk_eq_arctan (by norm_num)]
    norm_num

end Physics

/-! ## Many frames -/

section Frames

open Real

/-- C5: start from the initial state and run `n ≥ 1` frames (`earlier` followed by
`last`), none with a key held, with arbitrary frame times and clock values. Then the
ship's `x`, `z` and velocity are still exactly `0`, its `y` is the average of the four
corner wave heights at the last clock value `t` minus `0.1 * (1 + 0.2 * sin t)`, and
`y` lies in `[-0.264, 0.144]`. -/
theorem idle_from_rest (earlier : List (Frame ℝ)) (last : Frame ℝ)
    (hk : ∀ f ∈ earlier, f.keys = noKeys) (hl : last.keys = noKeys) :
    let m : Libm ℝ := ⟨Real.sin, Real.cos, Real.tan, Real.sqrt, fun b a => Complex.arg ⟨a, b⟩⟩
    let s := mainLoop m initialShip (earlier ++ [last])
    let t := last.time
    s.shipX = 0 ∧ s.shipZ = 0 ∧ s.shipVX = 0 ∧ s.shipVZ = 0
    ∧ s.shipY
        = (getWaveHeight m (0 - 0.5) (0 - 1.0) t + getWaveHeight m (0 + 0.5) (0 - 1.0) t
           + getWaveHeight m (0 - 0.5) (0 + 1.0) t + getWaveHeight m (0 + 0.5) (0 + 1.0) t) / 4
          - 0.1 * (1 + 0.2 * Real.sin t)
    ∧ -0.264 ≤ s.shipY ∧ s.shipY ≤ 0.144 := by
  intro m s t
  have hall : ∀ f ∈ earlier ++ [last], f.keys = noKeys := by
    intro f hf
    rcases List.mem_append.mp hf with h | h
    · exact hk f h
    · rw [List.mem_singleton.mp h]; exact hl
  have hi : (initialShip : Ship ℝ).shipX = 0 ∧ (initialShip : Ship ℝ).shipZ = 0
      ∧ (initialShip : Ship ℝ).shipVX = 0 ∧ (initialShip : Ship ℝ).shipVZ = 0 := by
    norm_num [initialShip]
  obtain ⟨h1, h2, h3, h4⟩ :=
    mainLoop_idle_rest m (earlier ++ [last]) hall initialShip hi.1 hi.2.1 hi.2.2.1 hi.2.2.2
  obtain ⟨e1, e2, e3, e4⟩ :=
    mainLoop_idle_rest m earlier hk initialShip hi.1 hi.2.1 hi.2.2.1 hi.2.2.2
  have hy : s.shipY
        = (getWaveHeight m (0 - 0.5) (0 - 1.0) t + getWaveHeight m (0 + 0.5) (0 - 1.0) t
           + getWaveHeight m (0 - 0.5) (0 + 1.0) t + getWaveHeight m (0 + 0.5) (0 + 1.0) t) / 4
          - 0.1 * (1 + 0.2 * Real.sin t) := by
    simp only [s, t]
    rw [mainLoop_concat]
    simp only [frame, hl, processInput_noKeys, updatePhysics, e1, e2, e3, e4, submersionDepth,
      zero_mul, add_zero]
    norm_num [m]
  have hb : ∀ a b : ℝ, |getWaveHeight m a b t| ≤ 0.1 := fun a b => abs_wave_le _ _
  have a1 := abs_le.mp (hb (0 - 0.5) (0 - 1.0))
  have a2 := abs_le.mp (hb (0 + 0.5) (0 - 1.0))
  have a3 := abs_le.mp (hb (0 - 0.5) (0 + 1.0))
  have a4 := abs_le.mp (hb (0 + 0.5) (0 + 1.0))
  have hs1 := Real.sin_le_one t
  have hs2 := Real.neg_one_le_sin t
  refine ⟨h1, h2, h3, h4, hy, ?_, ?_⟩
  · rw [hy]; linarith [a1.1, a2.1, a3.1, a4.1]
  · rw [hy]; linarith [a1.2, a2.2, a3.2, a4.2]

/-- C5 (witness): 200 idle frames at `dt = 1/60` with the clock advancing by `1/60`. -/
theorem idle_from_rest_witness :
    let m : Libm ℝ := ⟨Real.sin, Real.cos, Real.tan, Real.sqrt, fun b a => Complex.arg ⟨a, b⟩⟩
    let earlier : List (Frame ℝ) :=
      (List.range 199).map fun i : Nat =>
        { keys := noKeys, deltaTime := 1 / 60, time := ((i : ℝ) + 1) / 60 }
    let last : Frame ℝ := { keys := noKeys, deltaTime := 1 / 60, time := 200 / 60 }
    (∀ f ∈ earlier, f.keys = noKeys) ∧ last.keys = noKeys
    ∧ (earlier ++ [last]).length = 200
    ∧ (mainLoop m initialShip (earlier ++ [last])).shipX = 0
    ∧ (mainLoop m initialShip (earlier ++ [last])).shipZ = 0
    ∧ -0.264 ≤ (mainLoop m initialShip (earlier ++ [last])).shipY
    ∧ (mainLoop m initialShip (earlier ++ [last])).shipY ≤ 0.144 := by
  intro m earlier last
  have hk : ∀ f ∈ earlier, f.keys = noKeys := by
    intro f hf
    obtain ⟨i, _, rfl⟩ := List.mem_map.mp hf
    rfl
  have h := idle_from_rest earlier last hk rfl
  exact ⟨hk, rfl, by simp [earlier], h.1, h.2.1, h.2.2.2.2.2.1, h.2.2.2.2.2.2⟩

/-- C6: start from any state with velocity `(1, 1)` and run `N ≥ 0` frames with no key
held (so each frame is one call of `updatePhysics`), with arbitrary frame times and
clock values. The initial speed is `sqrt 2`, the speed after the `N` frames is
`sqrt 2 * 0.99 ^ N`, and for `N = 100` it is strictly below `0.37 * sqrt 2`. -/
theorem idle_damping_speed (s : Ship ℝ) (frames : List (Frame ℝ))
    (hvx : s.shipVX = 1) (hvz : s.shipVZ = 1) (hk : ∀ f ∈ frames, f.keys = noKeys) :
    let m : Libm ℝ := ⟨Real.sin, Real.cos, Real.tan, Real.sqrt, fun b a => Complex.arg ⟨a, b⟩⟩
    let s1 := mainLoop m s frames
    m.sqrt (s.shipVX ^ 2 + s.shipVZ ^ 2) = Real.sqrt 2
    ∧ m.sqrt (s1.shipVX ^ 2 + s1.shipVZ ^ 2) = Real.sqrt 2 * 0.99 ^ frames.length
    ∧ (frames.length = 100 →
        m.sqrt (s1.shipVX ^ 2 + s1.shipVZ ^ 2) < 0.37 * Real.sqrt 2) := by
  intro m s1
  obtain ⟨h1, h2⟩ := mainLoop_idle_velocity m frames hk s
  have hmag : Real.sqrt (s1.shipVX ^ 2 + s1.shipVZ ^ 2) = Real.sqrt 2 * 0.99 ^ frames.length := by
    simp only [s1]
    rw [h1, h2, hvx, hvz, one_mul]
    have hpos : (0 : ℝ) ≤ 0.99 ^ frames.length := by positivity
    rw [show ((0.99 : ℝ) ^ frames.length) ^ 2 + (0.99 ^ frames.length) ^ 2
          = 2 * ((0.99 : ℝ) ^ frames.length) ^ 2 by ring,
      Real.sqrt_mul (by norm_num), Real.sqrt_sq hpos]
  refine ⟨?_, hmag, fun hN => ?_⟩
  · show Real.sqrt (s.shipVX ^ 2 + s.shipVZ ^ 2) = Real.sqrt 2
    rw [hvx, hvz]
    norm_num
  · show Real.sqrt (s1.shipVX ^ 2 + s1.shipVZ ^ 2) < 0.37 * Real.sqrt 2
    rw [hmag, hN]
    have h2pos : 0 < Real.sqrt 2 := Real.sqrt_pos.mpr (by norm_num)
    have hpow : (0.99 : ℝ) ^ 100 < 0.37 := by norm_num
    nlinarith

/-- C6 (witness): 100 idle frames at `dt = 1/60` from the origin with velocity `(1, 1)`. -/
theorem idle_damping_speed_witness :
    let m : Libm ℝ := ⟨Real.sin, Real.cos, Real.tan, Real.sqrt, fun b a => Complex.arg ⟨a, b⟩⟩
    let s : Ship ℝ := { shipX := 0, shipY := 0.5, shipZ := 0, shipVX := 1, shipVZ := 1,
                        shipPitch := 0, shipRoll := 0, shipYaw := 0 }
    let frames : List (Frame ℝ) :=
      List.replicate 100 { keys := noKeys, deltaTime := 1 / 60, time := 0 }
    s.shipVX = 1 ∧ s.shipVZ = 1 ∧ (∀ f ∈ frames, f.keys = noKeys)
    ∧ frames.length = 100
    ∧ m.sqrt ((mainLoop m s frames).shipVX ^ 2 + (mainLoop m s frames).shipVZ ^ 2)
        = Real.sqrt 2 * 0.99 ^ 100
    ∧ m.sqrt ((mainLoop m s frames).shipVX ^ 2 + (mainLoop m s frames).shipVZ ^ 2)
        < 0.37 * Real.sqrt 2 := by
  intro m s frames
  have hk : ∀ f ∈ frames, f.keys = noKeys := by
    intro f hf
    rw [List.eq_of_mem_replicate hf]
  have hlen : frames.length = 100 := List.length_replicate _ _
  have h := idle_damping_speed s frames rfl rfl hk
  refine ⟨rfl, rfl, hk, hlen, ?_, h.2.2 hlen⟩
  have h2 := h.2.1
  rw [hlen] at h2
  exact h2

/-- C7: in every state whose yaw equals `atan2 (vx, vz)` of its velocity, one call of
`updatePhysics` (any frame time, any clock value) leaves the yaw unchanged; in every
state the new yaw is `yaw + 0.1 * (atan2 (vx', vz') - yaw)` with `(vx', vz')` the
damped velocity. -/
theorem yaw_fixed_point (s : Ship ℝ) (dt t : ℝ)
    (hyaw : s.shipYaw = Complex.arg ⟨s.shipVZ, s.shipVX⟩) :
    let m : Libm ℝ := ⟨Real.sin, Real.cos, Real.tan, Real.sqrt, fun b a => Complex.arg ⟨a, b⟩⟩
    let s1 := updatePhysics m dt t s
    s.shipYaw = m.atan2 s.shipVX s.shipVZ
    ∧ s1.shipYaw = s.shipYaw
    ∧ (∀ s0 : Ship ℝ,
        (updatePhysics m dt t s0).shipYaw
          = s0.shipYaw + 0.1 *
              (m.atan2 (updatePhysics m dt t s0).shipVX (updatePhysics m dt t s0).shipVZ
                - s0.shipYaw)) := by
  intro m s1
  refine ⟨hyaw, ?_, ?_⟩
  · simp only [s1, updatePhysics, mix, m]
    rw [arg_damped, ← hyaw]
    ring
  · intro s0
    simp only [updatePhysics, mix]
    ring

/-- C7 (witness): velocity `(1, 0)` and yaw `π / 2 = atan2 (1, 0)`. -/
theorem yaw_fixed_point_witness :
    let m : Libm ℝ := ⟨Real.sin, Real.cos, Real.tan, Real.sqrt, fun b a => Complex.arg ⟨a, b⟩⟩
    let s : Ship ℝ := { shipX := 0, shipY := 0.5, shipZ := 0, shipVX := 1, shipVZ := 0,
                        shipPitch := 0, shipRoll := 0, shipYaw := Real.pi / 2 }
    s.shipYaw = Complex.arg ⟨s.shipVZ, s.shipVX⟩
    ∧ (updatePhysics m (1 / 60) 0 s).shipYaw = Real.pi / 2 := by
  intro m s
  have h : s.shipYaw = Complex.arg ⟨s.shipVZ, s.shipVX⟩ := by
    show Real.pi / 2 = Complex.arg ⟨0, 1⟩
    rw [show (⟨0, 1⟩ : ℂ) = Complex.I from rfl, Complex.arg_I]
  exact ⟨h, (yaw_fixed_point s (1 / 60) 0 h).2.1⟩

end Frames

/-! ## Projection -/

section Projection

/-- C9: for every resize to `(w, h)` with `w > 0` and `h > 0`, whatever the projection
was before, `framebuffer_size_callback` sets it to the perspective matrix with field of
view `radians 45`, near `0.1`, far `100.0` and aspect the real quotient `w / h`; the
aspect recovered from the matrix, `projection[1][1] / projection[0][0]`, is `w / h`;
and the projection `init` sets has aspect `800 / 600`. -/
theorem resize_projection_aspect (w h : Int) (hw : 0 < w) (hh : 0 < h) (old : Mat4 ℝ) :
    let m : Libm ℝ := ⟨Real.sin, Real.cos, Real.tan, Real.sqrt, fun b a => Complex.arg ⟨a, b⟩⟩
    let p := framebuffer_size_callback m w h old
    p = perspective m (radians 45.0) ((w : ℝ) / (h : ℝ)) 0.1 100.0
    ∧ p 1 1 / p 0 0 = (w : ℝ) / (h : ℝ)
    ∧ initProjection m 1 1 / initProjection m 0 0 = (800 : ℝ) / 600 := by
  intro m p
  have ht := tan_half_fovy_pos
  have hw2 : (0 : ℝ) < w := by exact_mod_cast hw
  have hh2 : (0 : ℝ) < h := by exact_mod_cast hh
  refine ⟨rfl, ?_, ?_⟩
  · simp only [p, framebuffer_size_callback, perspective, m]
    simp
    field_simp
  · simp only [initProjection, perspective, m]
    simp
    field_simp
    norm_num

/-- C9 (witness): a resize to `3 x 2` gives aspect `1.5` (integer division would give `1`). -/
theorem resize_projection_aspect_witness :
    let m : Libm ℝ := ⟨Real.sin, Real.cos, Real.tan, Real.sqrt, fun b a => Complex.arg ⟨a, b⟩⟩
    (0 : Int) < 3 ∧ (0 : Int) < 2
    ∧ framebuffer_size_callback m 3 2 (initProjection m) 1 1
        / framebuffer_size_callback m 3 2 (initProjection m) 0 0 = (1.5 : ℝ) := by
  intro m
  have h := (resize_projection_aspect 3 2 (by decide) (by decide) (initProjection m)).2.1
  refine ⟨by decide, by decide, ?_⟩
  rw [h]
  norm_num

end Projection

/-! ## Water grid -/

section GridClaim

/-- C10: the water grid of `init` has `51 * 51 = 2601` vertices (three floats each) and
`50 * 50 * 6 = 15000` indices, the count `render` passes to `glDrawElements`; every
index is below `2601`; and for every cell `(i, j)` with `i, j < 50` the six indices are
`topLeft, bottomLeft, topRight, topRight, bottomLeft, bottomRight` with
`topLeft = 51 i + j`, `topRight = topLeft + 1`, `bottomLeft = 51 (i + 1) + j`,
`bottomRight = bottomLeft + 1`, all non-negative and below `2601`. -/
theorem water_grid_well_formed :
    (waterVertices (α := ℝ)).length = 3 * (51 * 51)
    ∧ waterIndices.length = 50 * 50 * 6
    ∧ waterIndices.length = waterDrawCount
    ∧ (∀ n : Fin waterIndices.length, waterIndices.get n < 51 * 51)
    ∧ (∀ i j : Fin 50,
        cellCorners (i.val : Int) (j.val : Int)
          = ((i.val : Int) * 51 + j.val, (i.val : Int) * 51 + j.val + 1,
             ((i.val : Int) + 1) * 51 + j.val, ((i.val : Int) + 1) * 51 + j.val + 1)
        ∧ cellIndices (i.val : Int) (j.val : Int)
          = [i.val * 51 + j.val, (i.val + 1) * 51 + j.val, i.val * 51 + j.val + 1,
             i.val * 51 + j.val + 1, (i.val + 1) * 51 + j.val, (i.val + 1) * 51 + j.val + 1]
        ∧ (0 : Int) ≤ (i.val : Int) * 51 + j.val
        ∧ i.val * 51 + j.val < 51 * 51 ∧ i.val * 51 + j.val + 1 < 51 * 51
        ∧ (i.val + 1) * 51 + j.val < 51 * 51 ∧ (i.val + 1) * 51 + j.val + 1 < 51 * 51) := by
  refine ⟨waterVertices_length, waterIndices_length, ?_, ?_, ?_⟩
  · rw [waterIndices_length]; rfl
  · intro n
    exact waterIndices_lt _ (List.get_mem _ _ _)
  · intro i j
    have hi := i.isLt
    have hj := j.isLt
    refine ⟨?_, cellIndices_eq i.val j.val hi hj, ?_, ?_, ?_, ?_, ?_⟩
    · simp [cellCorners, gridSize]
    all_goals omega

end GridClaim

end ShipDemo
